import Mathlib

/-!
Verification of the audio feature extraction core of a music analysis
browser extension (src/audio-analyzer.js).

The development shallowly embeds the three algorithmic components of the
AudioAnalyzer class:

1. the tempo estimator `calculateBPMFromSamples` (with its helper
   `calculateThreshold`), lines 151-202 of audio-analyzer.js;
2. the chromagram builder `calculateChromagram` with
   `frequencyToPitchClass`, lines 242-273;
3. the key classifier `detectKeyFromChromagram` with
   `calculateCorrelation` and the constant tables `NOTE_NAMES` and
   `CAMELOT_WHEEL`, lines 26-47 and 282-338.

Modelling conventions:
- JavaScript numbers holding sample energies, BPM values and chromagram
  weights are modelled exactly: rational inputs stay in the rationals
  wherever the source only uses field operations and comparisons, and the
  two genuinely transcendental operations (Math.sqrt in the peak
  threshold, Math.log2 and Math.pow in the chromagram) are modelled by the
  exact real functions Real.sqrt, Real.logb and Real.rpow.
- JavaScript `Math.round` is `round` (both are floor of x + 1/2), and the
  JavaScript `%` operator on integers is `Int.tmod` (both truncate).
- Array reads `a[i]` are `List.getD i 0` (every read in the source is in
  bounds); `Array.prototype.sort` with an ascending comparator is
  `List.mergeSort`; `Math.max(...a)` on the 12 element chromagram is
  `listMax`.
- The `-Infinity` initial best correlation of the key scan is modelled by
  an `Option` state: `none` loses every comparison, exactly as every
  finite score beats `-Infinity`.
-/

/-! ## Tempo estimator (audio-analyzer.js lines 151-202) -/

/-- Mean of the sample list, the `sum / samples.length` step of
`calculateThreshold` (lines 197-198). -/
def meanQ (samples : List ℚ) : ℚ := samples.foldl (· + ·) 0 / samples.length

/-- Population variance of the sample list, the `reduce` of squared
deviations divided by the length (line 199 of `calculateThreshold`). -/
def varQ (samples : List ℚ) : ℚ :=
  samples.foldl (fun a b => a + (b - meanQ samples) ^ 2) 0 / samples.length

/-- Peak detection threshold, `mean + stdDev * 1.5` with
`stdDev = Math.sqrt(variance)` (lines 196-202 of `calculateThreshold`). -/
noncomputable def calculateThreshold (samples : List ℚ) : ℝ :=
  (meanQ samples : ℝ) + Real.sqrt (varQ samples) * 1.5

theorem varQ_nonneg (samples : List ℚ) : 0 ≤ varQ samples := by
  unfold varQ
  apply div_nonneg _ (by positivity)
  have h : ∀ (l : List ℚ) (c : ℚ), 0 ≤ c →
      0 ≤ l.foldl (fun a b => a + (b - meanQ samples) ^ 2) c := by
    intro l
    induction l with
    | nil => intro c hc; simpa using hc
    | cons x xs ih =>
      intro c hc
      simpa [List.foldl_cons] using ih (c + (x - meanQ samples) ^ 2) (by positivity)
  exact h samples 0 le_rfl

/-- The real threshold comparison of the peak scan is equivalent to a purely
rational condition; this drives the decidability instance below. -/
theorem thresholdLt_iff (samples : List ℚ) (x : ℚ) :
    calculateThreshold samples < (x : ℝ) ↔
      meanQ samples < x ∧ 9 / 4 * varQ samples < (x - meanQ samples) ^ 2 := by
  have hv : (0:ℝ) ≤ (varQ samples : ℝ) := by exact_mod_cast varQ_nonneg samples
  have hs : 0 ≤ Real.sqrt (varQ samples) := Real.sqrt_nonneg _
  unfold calculateThreshold
  constructor
  · intro h
    have hmx : (meanQ samples : ℝ) < x := by nlinarith
    refine ⟨by exact_mod_cast hmx, ?_⟩
    have h2 : Real.sqrt (varQ samples) * 1.5 < (x : ℝ) - meanQ samples := by linarith
    have h3 : (Real.sqrt (varQ samples) * 1.5) ^ 2 < ((x : ℝ) - meanQ samples) ^ 2 := by
      apply pow_lt_pow_left₀ h2 (by positivity)
      norm_num
    rw [mul_pow, Real.sq_sqrt hv] at h3
    rw [← Rat.cast_lt (K := ℝ)]
    push_cast
    nlinarith
  · rintro ⟨h1, h2⟩
    have h1R : (meanQ samples : ℝ) < x := by exact_mod_cast h1
    rw [← Rat.cast_lt (K := ℝ)] at h2
    push_cast at h2
    have hsq : (Real.sqrt (varQ samples) * 1.5) ^ 2 < ((x : ℝ) - meanQ samples) ^ 2 := by
      rw [mul_pow, Real.sq_sqrt hv]; nlinarith
    have h4 : Real.sqrt (varQ samples) * 1.5 < (x : ℝ) - meanQ samples := by
      have := lt_of_pow_lt_pow_left₀ 2 (by linarith : (0:ℝ) ≤ (x : ℝ) - meanQ samples) hsq
      linarith
    linarith

instance decThresholdLt (samples : List ℚ) (x : ℚ) :
    Decidable (calculateThreshold samples < (x : ℝ)) :=
  decidable_of_iff _ (thresholdLt_iff samples x).symm

/-- Index `i` passes the inner condition of the peak scan loop of
`calculateBPMFromSamples` (lines 156-162): the loop range `1 <= i` and
`i < samples.length - 1` together with the strict local maximum test
above the threshold. -/
def isPeak (samples : List ℚ) (i : ℕ) : Prop :=
  1 ≤ i ∧ i + 1 < samples.length ∧
  calculateThreshold samples < (samples.getD i 0 : ℝ) ∧
  samples.getD (i - 1) 0 < samples.getD i 0 ∧
  samples.getD (i + 1) 0 < samples.getD i 0

instance (samples : List ℚ) : DecidablePred (isPeak samples) := fun _ => by
  unfold isPeak; infer_instance

/-- Peak index list, the `peaks` array built by the scan loop of
`calculateBPMFromSamples` (lines 153-162). -/
def peaks (samples : List ℚ) : List ℕ :=
  (List.range samples.length).filter (fun i => decide (isPeak samples i))

/-- Consecutive differences of a peak index list, the `intervals` array
(lines 169-172). -/
def intervalsOf (l : List ℕ) : List ℕ := (l.zip l.tail).map fun p => p.2 - p.1

/-- The median interval: sort the intervals ascending and take the element
at the floored half length (lines 175-176). -/
def medianIntervalOf (samples : List ℚ) : ℕ :=
  let intervals := intervalsOf (peaks samples)
  (intervals.mergeSort (· ≤ ·)).getD (intervals.length / 2) 0

/-- The BPM before octave folding: `60 / secondsPerBeat` with
`secondsPerBeat = medianInterval / 60`, the hardcoded `framesPerSecond`
(lines 179-181). -/
def preFoldBPM (samples : List ℚ) : ℚ := 60 / ((medianIntervalOf samples : ℚ) / 60)

/-- The single octave folding step of lines 184-187. -/
def octaveFoldOnce (bpm : ℚ) : ℚ :=
  if bpm < 60 then bpm * 2 else if bpm > 180 then bpm / 2 else bpm

/-- The full `calculateBPMFromSamples(samples, sampleRate)` of lines
151-188. The `sampleRate` parameter is received but never read by the
source; the conversion uses the hardcoded constant 60. -/
def calculateBPMFromSamples (samples : List ℚ) (sampleRate : ℚ) : ℚ :=
  let ps := peaks samples
  if ps.length < 2 then 120
  else
    let intervals := (ps.zip ps.tail).map fun p => p.2 - p.1
    let sorted := intervals.mergeSort (· ≤ ·)
    let medianInterval : ℕ := sorted.getD (intervals.length / 2) 0
    let framesPerSecond : ℚ := 60
    let secondsPerBeat : ℚ := (medianInterval : ℚ) / framesPerSecond
    let bpm := 60 / secondsPerBeat
    if bpm < 60 then bpm * 2
    else if bpm > 180 then bpm / 2
    else bpm

/-- The integer BPM reported by `analyzeBPM`, which rounds the value of
`calculateBPMFromSamples` (line 135). -/
def analyzeBPMResult (samples : List ℚ) (sampleRate : ℚ) : ℤ :=
  round (calculateBPMFromSamples samples sampleRate)

/-! ### Tempo estimator: structural lemmas -/

theorem calcBPM_of_two_peaks (samples : List ℚ) (rate : ℚ)
    (h : 2 ≤ (peaks samples).length) :
    calculateBPMFromSamples samples rate = octaveFoldOnce (preFoldBPM samples) := by
  unfold calculateBPMFromSamples octaveFoldOnce preFoldBPM medianIntervalOf intervalsOf
  rw [if_neg (by omega)]

theorem peaks_pairwise (samples : List ℚ) : (peaks samples).Pairwise (· < ·) :=
  (List.pairwise_lt_range _).filter _

theorem zip_tail_lt : ∀ (l : List ℕ), l.Pairwise (· < ·) →
    ∀ p ∈ l.zip l.tail, p.1 < p.2 := by
  intro l
  induction l with
  | nil => intro _ p hp; cases hp
  | cons a t ih =>
    intro h p hp
    cases t with
    | nil => cases hp
    | cons b t2 =>
      rcases List.mem_cons.mp hp with hp' | hp'
      · subst hp'
        exact (List.pairwise_cons.mp h).1 b (List.mem_cons_self b t2)
      · exact ih (List.pairwise_cons.mp h).2 p hp'

theorem intervals_pos (samples : List ℚ) :
    ∀ x ∈ intervalsOf (peaks samples), 1 ≤ x := by
  intro x hx
  unfold intervalsOf at hx
  obtain ⟨p, hp, hpx⟩ := List.mem_map.mp hx
  have := zip_tail_lt (peaks samples) (peaks_pairwise samples) p hp
  omega

theorem intervals_length (samples : List ℚ) :
    (intervalsOf (peaks samples)).length = (peaks samples).length - 1 := by
  unfold intervalsOf
  rw [List.length_map, List.length_zip, List.length_tail]
  omega

theorem medianInterval_pos (samples : List ℚ) (h : 2 ≤ (peaks samples).length) :
    1 ≤ medianIntervalOf samples := by
  unfold medianIntervalOf
  have hlen := intervals_length samples
  have hidx : (intervalsOf (peaks samples)).length / 2 <
      ((intervalsOf (peaks samples)).mergeSort (· ≤ ·)).length := by
    rw [List.length_mergeSort]
    omega
  rw [List.getD_eq_getElem _ _ hidx]
  exact intervals_pos samples _
    ((List.mergeSort_perm (intervalsOf (peaks samples)) _).subset
      (List.getElem_mem hidx))

theorem mergeSort_le_sorted (l : List ℕ) :
    (l.mergeSort (· ≤ ·)).Pairwise (· ≤ ·) := by
  have htr : ∀ (x y z : ℕ), decide (x ≤ y) = true → decide (y ≤ z) = true →
      decide (x ≤ z) = true := by
    intro x y z hxy hyz
    rw [decide_eq_true_eq] at hxy hyz ⊢
    omega
  have htot : ∀ (x y : ℕ), (decide (x ≤ y) || decide (y ≤ x)) = true := by
    intro x y
    rcases Nat.le_total x y with h | h
    · simp [h]
    · simp [h]
  have hs := @List.sorted_mergeSort ℕ (fun a b => decide (a ≤ b)) htr htot l
  refine hs.imp ?_
  intro x y hxy
  exact of_decide_eq_true hxy

theorem preFoldBPM_eq (samples : List ℚ) :
    preFoldBPM samples = 60 * 60 / (medianIntervalOf samples : ℚ) := by
  unfold preFoldBPM
  rw [div_div_eq_mul_div]

/-- Rounding keeps a rational in the integer range [60, 180] whenever the
rational itself lies in [60, 180]. -/
theorem round_range {q : ℚ} (h1 : 60 ≤ q) (h2 : q ≤ 180) :
    60 ≤ round q ∧ round q ≤ 180 := by
  rw [round_eq]
  constructor
  · rw [Int.le_floor]
    push_cast
    linarith
  · have h3 : (⌊q + 1 / 2⌋ : ℤ) < 181 := by
      rw [Int.floor_lt]
      push_cast
      linarith
    omega

/-! ### Concrete sample series used as test vectors.
`exA` has two sharp spikes two ticks apart (median interval 2,
raw BPM 1800), `exB` has two spikes ten ticks apart (raw BPM 360).
Both have a perfect square variance, so the threshold is rational. -/

def exA : List ℚ := [0, 0, 0, 1, 0, 1, 0, 0, 0, 0]

def exB : List ℚ :=
  [0, 0, 0, 0, 1, 0, 0, 0, 0, 0, 0, 0, 0, 0, 1, 0, 0, 0, 0, 0]

theorem meanQ_exA : meanQ exA = 1 / 5 := by norm_num [meanQ, exA, List.foldl]

theorem varQ_exA : varQ exA = 4 / 25 := by
  unfold varQ
  simp only [meanQ_exA]
  norm_num [exA, List.foldl]

theorem isPeak_exA (i : ℕ) :
    isPeak exA i ↔
      1 ≤ i ∧ i + 1 < exA.length ∧
      (meanQ exA < exA.getD i 0 ∧ 9 / 4 * varQ exA < (exA.getD i 0 - meanQ exA) ^ 2) ∧
      exA.getD (i - 1) 0 < exA.getD i 0 ∧
      exA.getD (i + 1) 0 < exA.getD i 0 := by
  unfold isPeak
  rw [thresholdLt_iff]

theorem peaks_exA : peaks exA = [3, 5] := by
  have hrange : List.range exA.length = [0, 1, 2, 3, 4, 5, 6, 7, 8, 9] := by
    simp [exA]
    rfl
  unfold peaks
  rw [hrange]
  simp only [List.filter_cons, List.filter_nil, decide_eq_true_eq, isPeak_exA,
    meanQ_exA, varQ_exA]
  norm_num [exA]

theorem meanQ_exB : meanQ exB = 1 / 10 := by norm_num [meanQ, exB, List.foldl]

theorem varQ_exB : varQ exB = 9 / 100 := by
  unfold varQ
  simp only [meanQ_exB]
  norm_num [exB, List.foldl]

theorem isPeak_exB (i : ℕ) :
    isPeak exB i ↔
      1 ≤ i ∧ i + 1 < exB.length ∧
      (meanQ exB < exB.getD i 0 ∧ 9 / 4 * varQ exB < (exB.getD i 0 - meanQ exB) ^ 2) ∧
      exB.getD (i - 1) 0 < exB.getD i 0 ∧
      exB.getD (i + 1) 0 < exB.getD i 0 := by
  unfold isPeak
  rw [thresholdLt_iff]

theorem peaks_exB : peaks exB = [4, 14] := by
  have hrange : List.range exB.length =
      [0, 1, 2, 3, 4, 5, 6, 7, 8, 9, 10, 11, 12, 13, 14, 15, 16, 17, 18, 19] := by
    simp [exB]
    rfl
  unfold peaks
  rw [hrange]
  simp only [List.filter_cons, List.filter_nil, decide_eq_true_eq, isPeak_exB,
    meanQ_exB, varQ_exB]
  norm_num [exB]

theorem mergeSort_single (a : ℕ) : [a].mergeSort (· ≤ ·) = [a] := by simp

theorem medianInterval_exA : medianIntervalOf exA = 2 := by
  unfold medianIntervalOf intervalsOf
  rw [peaks_exA]
  norm_num [mergeSort_single]

theorem medianInterval_exB : medianIntervalOf exB = 10 := by
  unfold medianIntervalOf intervalsOf
  rw [peaks_exB]
  norm_num [mergeSort_single]

theorem preFoldBPM_exA : preFoldBPM exA = 1800 := by
  rw [preFoldBPM_eq, medianInterval_exA]
  norm_num

theorem preFoldBPM_exB : preFoldBPM exB = 360 := by
  rw [preFoldBPM_eq, medianInterval_exB]
  norm_num

theorem calcBPM_exA (rate : ℚ) : calculateBPMFromSamples exA rate = 900 := by
  rw [calcBPM_of_two_peaks exA rate (by rw [peaks_exA]; norm_num), preFoldBPM_exA]
  norm_num [octaveFoldOnce]

theorem calcBPM_exB (rate : ℚ) : calculateBPMFromSamples exB rate = 180 := by
  rw [calcBPM_of_two_peaks exB rate (by rw [peaks_exB]; norm_num), preFoldBPM_exB]
  norm_num [octaveFoldOnce]

/-! ## Claim C1: range of the reported BPM.

The claim states that for every non-empty sample series the estimator
returns an integer in [60, 180]. The single octave fold of the source
does not bound the result: `exA` is a non-empty series of energies in
[0, 1] whose median peak interval is 2 ticks, so the raw BPM is 1800 and
one halving leaves 900. The claim fails; the bound does hold whenever
there are fewer than two peaks (fallback 120) or the raw BPM lies in
[30, 360], which is what the amended theorem states. -/

/-- Claim C1, counterexample: the non-empty series `exA` (with the
positive tick rate 60) yields the reported BPM 900, outside [60, 180]. -/
theorem C1_range_counterexample :
    exA ≠ [] ∧ (0:ℚ) < 60 ∧
      ¬ (60 ≤ analyzeBPMResult exA 60 ∧ analyzeBPMResult exA 60 ≤ 180) := by
  refine ⟨by simp [exA], by norm_num, ?_⟩
  have h : analyzeBPMResult exA 60 = 900 := by
    unfold analyzeBPMResult
    rw [calcBPM_exA]
    norm_num [round_eq]
  rw [h]
  omega

/-- Claim C1, amended: the reported BPM is an integer in [60, 180]
whenever fewer than two peaks are detected (fallback 120) or the raw BPM
before folding lies in [30, 360]; outside that band a single octave fold
cannot reach [60, 180]. -/
theorem C1_range_amended (samples : List ℚ) (rate : ℚ)
    (h : (peaks samples).length < 2 ∨
      (30 ≤ preFoldBPM samples ∧ preFoldBPM samples ≤ 360)) :
    60 ≤ analyzeBPMResult samples rate ∧ analyzeBPMResult samples rate ≤ 180 := by
  unfold analyzeBPMResult
  rcases Nat.lt_or_ge (peaks samples).length 2 with hp | hp
  · unfold calculateBPMFromSamples
    rw [if_pos hp]
    norm_num [round_eq]
  · obtain ⟨h1, h2⟩ : 30 ≤ preFoldBPM samples ∧ preFoldBPM samples ≤ 360 := by
      rcases h with h | h
      · omega
      · exact h
    rw [calcBPM_of_two_peaks samples rate hp]
    unfold octaveFoldOnce
    rcases lt_or_le (preFoldBPM samples) 60 with hb1 | hb1
    · rw [if_pos hb1]
      exact round_range (by linarith) (by linarith)
    · rw [if_neg (not_lt.mpr hb1)]
      rcases lt_or_le (180:ℚ) (preFoldBPM samples) with hb2 | hb2
      · rw [if_pos hb2]
        exact round_range (by linarith) (by linarith)
      · rw [if_neg (not_lt.mpr hb2)]
        exact round_range hb1 hb2

/-- Claim C1 witness: the series `exB` has two peaks ten ticks apart, raw
BPM 360, and the reported BPM is 180, inside the range. -/
theorem C1_range_amended_witness :
    ((peaks exB).length < 2 ∨ (30 ≤ preFoldBPM exB ∧ preFoldBPM exB ≤ 360)) ∧
      60 ≤ analyzeBPMResult exB 60 ∧ analyzeBPMResult exB 60 ≤ 180 :=
  ⟨Or.inr (by rw [preFoldBPM_exB]; norm_num),
    C1_range_amended exB 60 (Or.inr (by rw [preFoldBPM_exB]; norm_num))⟩

/-! ## Claim C2: interval to BPM conversion.

The sorting and lower-median steps are as claimed, but the claimed
formula `bpm = 60 * tickRateHz / medianInterval` with `tickRateHz` the
explicit argument is wrong: the source never reads its `sampleRate`
parameter and divides by the hardcoded constant 60 instead. On `exA`
(median interval 2) with the argument 120 the claimed pre-fold BPM would
be 3600, the code computes 1800. -/

/-- Claim C2, counterexample: with tick rate argument 120 the pre-fold
BPM of the code is 1800, not `60 * 120 / medianInterval = 3600`; the
final conjunct certifies that `preFoldBPM` is exactly the value the code
folds. -/
theorem C2_rate_counterexample :
    medianIntervalOf exA = 2 ∧
    preFoldBPM exA = 1800 ∧
    60 * (120:ℚ) / (medianIntervalOf exA : ℚ) = 3600 ∧
    preFoldBPM exA ≠ 60 * (120:ℚ) / (medianIntervalOf exA : ℚ) ∧
    calculateBPMFromSamples exA 120 = octaveFoldOnce (preFoldBPM exA) := by
  refine ⟨medianInterval_exA, preFoldBPM_exA, ?_, ?_, ?_⟩
  · rw [medianInterval_exA]
    norm_num
  · rw [medianInterval_exA, preFoldBPM_exA]
    norm_num
  · exact calcBPM_of_two_peaks exA 120 (by rw [peaks_exA]; norm_num)

/-- Claim C2, amended: the intervals are sorted ascending (the sorted
list is an ordered permutation of the interval list), the median is the
element at the floored half length, and the BPM before folding is
`60 * 60 / medianInterval`, with the tick rate the hardcoded constant 60:
the explicit rate argument never influences the result. -/
theorem C2_median_bpm_amended (samples : List ℚ) (rate : ℚ)
    (h : 2 ≤ (peaks samples).length) :
    calculateBPMFromSamples samples rate
        = octaveFoldOnce (60 * 60 / (medianIntervalOf samples : ℚ)) ∧
    (∀ rate2, calculateBPMFromSamples samples rate2
        = calculateBPMFromSamples samples rate) ∧
    ((intervalsOf (peaks samples)).mergeSort (· ≤ ·)).Pairwise (· ≤ ·) ∧
    ((intervalsOf (peaks samples)).mergeSort (· ≤ ·)).Perm
        (intervalsOf (peaks samples)) ∧
    medianIntervalOf samples
        = ((intervalsOf (peaks samples)).mergeSort (· ≤ ·)).getD
            ((intervalsOf (peaks samples)).length / 2) 0 := by
  refine ⟨?_, ?_, mergeSort_le_sorted _, List.mergeSort_perm _ _, rfl⟩
  · rw [calcBPM_of_two_peaks samples rate h, preFoldBPM_eq]
  · intro rate2
    rw [calcBPM_of_two_peaks samples rate h, calcBPM_of_two_peaks samples rate2 h]

/-- Claim C2 witness: instantiated on `exA` at rate 44100. -/
theorem C2_median_bpm_amended_witness :
    2 ≤ (peaks exA).length ∧
      calculateBPMFromSamples exA 44100
        = octaveFoldOnce (60 * 60 / (medianIntervalOf exA : ℚ)) :=
  ⟨by rw [peaks_exA]; norm_num,
    (C2_median_bpm_amended exA 44100 (by rw [peaks_exA]; norm_num)).1⟩

/-! ## Claim C3: octave folding happens exactly once. -/

/-- Claim C3: whenever at least two peaks exist, the result is the raw
BPM folded exactly once by `octaveFoldOnce`; a raw BPM of 240 becomes
120, and a raw BPM of 500 becomes 250 (not iterated into [60, 180]). -/
theorem C3_octave_fold_once :
    (∀ (samples : List ℚ) (rate : ℚ), 2 ≤ (peaks samples).length →
      calculateBPMFromSamples samples rate = octaveFoldOnce (preFoldBPM samples)) ∧
    octaveFoldOnce 240 = 120 ∧
    octaveFoldOnce 500 = 250 := by
  refine ⟨fun samples rate h => calcBPM_of_two_peaks samples rate h, ?_, ?_⟩
  · norm_num [octaveFoldOnce]
  · norm_num [octaveFoldOnce]

/-- Claim C3 witness: instantiated on `exA`, whose raw BPM 1800 folds
once to 900. -/
theorem C3_octave_fold_once_witness :
    2 ≤ (peaks exA).length ∧
      calculateBPMFromSamples exA 60 = octaveFoldOnce (preFoldBPM exA) :=
  ⟨by rw [peaks_exA]; norm_num,
    C3_octave_fold_once.1 exA 60 (by rw [peaks_exA]; norm_num)⟩

/-! ## Claim C4: fallback 120 when fewer than two peaks qualify. -/

/-- Claim C4: whenever fewer than two indices qualify as peaks, the
estimator returns exactly 120, by the explicit fallback branch, not by
an error. -/
theorem C4_default_on_few_peaks (samples : List ℚ) (rate : ℚ)
    (h : (peaks samples).length < 2) :
    calculateBPMFromSamples samples rate = 120 := by
  unfold calculateBPMFromSamples
  rw [if_pos h]

theorem peaks_flat : peaks [1, 1, 1] = [] := by
  unfold peaks
  rw [show List.range ([1, 1, 1] : List ℚ).length = [0, 1, 2] from rfl]
  simp [isPeak]

/-- Claim C4 witness: the constant series `[1, 1, 1]` has no strict local
maximum, hence no peaks, and the estimator returns 120. -/
theorem C4_default_on_few_peaks_witness :
    (peaks [1, 1, 1]).length < 2 ∧ calculateBPMFromSamples [1, 1, 1] 60 = 120 :=
  ⟨by rw [peaks_flat]; norm_num,
    C4_default_on_few_peaks [1, 1, 1] 60 (by rw [peaks_flat]; norm_num)⟩

/-! ## Claim C10: series with fewer than three elements. -/

/-- Claim C10: a series with fewer than three elements (the empty series
included) has no index with both neighbours, so no peak qualifies and the
estimator totally returns 120 for every rate argument; empty input is not
rejected. -/
theorem C10_short_series_default (samples : List ℚ) (rate : ℚ)
    (h : samples.length < 3) :
    calculateBPMFromSamples samples rate = 120 := by
  have hp : peaks samples = [] := by
    unfold peaks
    apply List.filter_eq_nil_iff.mpr
    intro a _
    simp only [decide_eq_true_eq]
    unfold isPeak
    rintro ⟨h1, h2, -⟩
    omega
  unfold calculateBPMFromSamples
  rw [hp]
  norm_num

/-- Claim C10 witness: a two element series with an arbitrary audio
sample rate argument returns 120. -/
theorem C10_short_series_default_witness :
    ([1/2, 7/10] : List ℚ).length < 3 ∧
      calculateBPMFromSamples [1/2, 7/10] 44100 = 120 :=
  ⟨by norm_num, C10_short_series_default [1/2, 7/10] 44100 (by norm_num)⟩

/-! ## Chromagram builder (audio-analyzer.js lines 242-273) -/

/-- The pitch class of a frequency, `Math.round(midiNote) % 12` with
`midiNote = 12 * Math.log2(frequency / 440) + 69` (lines 268-273).
`Int.tmod` is the truncating remainder of the JavaScript `%`. -/
noncomputable def frequencyToPitchClass (frequency : ℝ) : ℤ :=
  let midiNote := 12 * Real.logb 2 (frequency / 440) + 69
  Int.tmod (round midiNote) 12

/-- One iteration of the accumulation loop of `calculateChromagram`
(lines 248-255): skip bins outside the 60 to 4000 Hz band, convert dB to
a linear magnitude, and add it at the pitch class index. A negative pitch
class in JavaScript would write a non-index property, invisible in the
returned array, which the guard models; the in-band branch never takes
the negative case. -/
noncomputable def accumStep (frequencyData : List ℝ) (binSize : ℝ)
    (chromagram : List ℝ) (i : ℕ) : List ℝ :=
  let frequency := (i : ℝ) * binSize
  if frequency < 60 ∨ frequency > 4000 then chromagram
  else
    let magnitude := (10 : ℝ) ^ (frequencyData.getD i 0 / 20)
    let pitchClass := frequencyToPitchClass frequency
    if 0 ≤ pitchClass then
      chromagram.set pitchClass.toNat (chromagram.getD pitchClass.toNat 0 + magnitude)
    else chromagram

/-- The accumulation loop of `calculateChromagram` over all bins, starting
from `new Array(12).fill(0)` (lines 243-255). -/
noncomputable def accumulateChromagram (frequencyData : List ℝ) (binSize : ℝ) : List ℝ :=
  (List.range frequencyData.length).foldl (accumStep frequencyData binSize)
    (List.replicate 12 0)

/-- Maximum of a list of reals, `Math.max(...chromagram)`; the nil case is
unreachable because the chromagram always has 12 elements. -/
noncomputable def listMax : List ℝ → ℝ
  | [] => 0
  | a :: l => l.foldl max a

/-- The full `calculateChromagram(frequencyData)` of lines 242-260, with
the ambient `sampleRate` and `this.analyser.fftSize` as parameters:
`binSize = sampleRate / (fftSize * 2)`, accumulate, then normalize every
element by the maximum, or to 0 when the maximum is not positive. -/
noncomputable def calculateChromagram (frequencyData : List ℝ) (sampleRate : ℝ)
    (fftSize : ℝ) : List ℝ :=
  let binSize := sampleRate / (fftSize * 2)
  let chromagram := accumulateChromagram frequencyData binSize
  let m := listMax chromagram
  chromagram.map (fun v => if m > 0 then v / m else 0)

/-! ### Chromagram builder: helper lemmas -/

theorem getD_replicate_self {α : Type} (n i : ℕ) (a : α) :
    (List.replicate n a).getD i a = a := by
  rcases lt_or_le i n with h | h
  · rw [List.getD_eq_getElem _ _ (by simpa using h)]
    simp
  · rw [List.getD_eq_default _ _ (by simpa using h)]

theorem frequencyToPitchClass_bounds (f : ℝ) (h1 : 60 ≤ f) :
    0 ≤ frequencyToPitchClass f ∧ frequencyToPitchClass f ≤ 11 := by
  unfold frequencyToPitchClass
  have hlb : Real.logb 2 (1 / 8 : ℝ) ≤ Real.logb 2 (f / 440) := by
    apply Real.logb_le_logb_of_le (by norm_num : (1:ℝ) < 2) (by norm_num)
    linarith
  have h18 : Real.logb 2 (1 / 8 : ℝ) = -3 := by
    rw [show (1 / 8 : ℝ) = 2 ^ (-3 : ℝ) by
      rw [Real.rpow_neg (by norm_num), show ((3:ℝ)) = ((3:ℕ):ℝ) by norm_num,
        Real.rpow_natCast]
      norm_num]
    exact Real.logb_rpow (by norm_num) (by norm_num)
  have hround : 0 ≤ round (12 * Real.logb 2 (f / 440) + 69) := by
    rw [round_eq, Int.floor_nonneg]
    nlinarith
  refine ⟨?_, ?_⟩
  · rw [Int.tmod_eq_emod hround (by norm_num)]
    exact Int.emod_nonneg _ (by norm_num)
  · rw [Int.tmod_eq_emod hround (by norm_num)]
    have := Int.emod_lt_of_pos (round (12 * Real.logb 2 (f / 440) + 69))
      (show (0:ℤ) < 12 by norm_num)
    omega

theorem getD_nonneg (l : List ℝ) (h : ∀ x ∈ l, 0 ≤ x) (n : ℕ) : 0 ≤ l.getD n 0 := by
  rcases lt_or_le n l.length with hn | hn
  · rw [List.getD_eq_getElem _ _ hn]
    exact h _ (List.getElem_mem hn)
  · rw [List.getD_eq_default _ _ hn]

theorem accum_invariant (fd : List ℝ) (bs : ℝ) :
    ∀ (l : List ℕ) (init : List ℝ), init.length = 12 → (∀ x ∈ init, 0 ≤ x) →
      (l.foldl (accumStep fd bs) init).length = 12 ∧
      (∀ x ∈ l.foldl (accumStep fd bs) init, 0 ≤ x) := by
  intro l
  induction l with
  | nil => intro init h1 h2; exact ⟨h1, h2⟩
  | cons a t ih =>
    intro init h1 h2
    rw [List.foldl_cons]
    apply ih
    · unfold accumStep
      dsimp only
      split
      · exact h1
      · split
        · rw [List.length_set]; exact h1
        · exact h1
    · unfold accumStep
      dsimp only
      split
      · exact h2
      · split
        · intro x hx
          rcases List.mem_or_eq_of_mem_set hx with hx' | hx'
          · exact h2 x hx'
          · subst hx'
            have hm : (0:ℝ) < (10 : ℝ) ^ (fd.getD a 0 / 20) :=
              Real.rpow_pos_of_pos (by norm_num) _
            have := getD_nonneg init h2 (frequencyToPitchClass ((a : ℝ) * bs)).toNat
            linarith
        · exact h2

theorem accum_length (fd : List ℝ) (bs : ℝ) : (accumulateChromagram fd bs).length = 12 :=
  (accum_invariant fd bs _ _ (by simp) (by simp)).1

theorem accum_nonneg (fd : List ℝ) (bs : ℝ) : ∀ x ∈ accumulateChromagram fd bs, 0 ≤ x :=
  (accum_invariant fd bs _ _ (by simp) (by simp)).2

theorem le_foldl_max (l : List ℝ) : ∀ (a : ℝ),
    a ≤ l.foldl max a ∧ ∀ x ∈ l, x ≤ l.foldl max a := by
  induction l with
  | nil => intro a; exact ⟨le_rfl, by simp⟩
  | cons b t ih =>
    intro a
    rw [List.foldl_cons]
    obtain ⟨h1, h2⟩ := ih (max a b)
    refine ⟨le_trans (le_max_left a b) h1, ?_⟩
    intro x hx
    rcases List.mem_cons.mp hx with hx' | hx'
    · subst hx'; exact le_trans (le_max_right a x) h1
    · exact h2 x hx'

theorem foldl_max_mem (l : List ℝ) : ∀ (a : ℝ), l.foldl max a = a ∨ l.foldl max a ∈ l := by
  induction l with
  | nil => intro a; left; rfl
  | cons b t ih =>
    intro a
    rw [List.foldl_cons]
    rcases ih (max a b) with h | h
    · rcases max_choice a b with hab | hab
      · left; rw [h, hab]
      · right; rw [h, hab]; exact List.mem_cons_self b t
    · right; exact List.mem_cons_of_mem b h

theorem le_listMax_of_mem {l : List ℝ} {x : ℝ} (hx : x ∈ l) : x ≤ listMax l := by
  cases l with
  | nil => cases hx
  | cons a t =>
    show x ≤ List.foldl max a t
    rcases List.mem_cons.mp hx with h | h
    · subst h; exact (le_foldl_max t x).1
    · exact (le_foldl_max t a).2 x h

theorem listMax_mem {l : List ℝ} (h : l ≠ []) : listMax l ∈ l := by
  cases l with
  | nil => exact absurd rfl h
  | cons a t =>
    show List.foldl max a t ∈ a :: t
    rcases foldl_max_mem t a with h' | h'
    · rw [h']; exact List.mem_cons_self a t
    · exact List.mem_cons_of_mem a h'

theorem listMax_nonneg_of (l : List ℝ) (hne : l ≠ []) (h : ∀ x ∈ l, 0 ≤ x) :
    0 ≤ listMax l :=
  h _ (listMax_mem hne)

/-! ## Claim C5: chromagram normalization.

Three of the four asserted properties hold: the output is always inside
[0, 1], a zero accumulated maximum gives the all zero array with no
division, and a not-all-zero accumulation puts an exact 1 in the output.
The fourth (an all zero dB spectrum yields twelve zeros) is false: a bin
holding 0 dB has linear magnitude 10 to the power 0 = 1, so any all zero
spectrum with a bin inside the 60 to 4000 Hz band produces a chromagram
containing a 1. -/

theorem pc440 : frequencyToPitchClass 440 = 9 := by
  unfold frequencyToPitchClass
  rw [show (440:ℝ) / 440 = 1 by norm_num, Real.logb_one]
  norm_num [round_eq]
  decide

theorem accum_twoZeroBins :
    accumulateChromagram [0, 0] (880 / (1 * 2)) = (List.replicate 12 (0:ℝ)).set 9 1 := by
  unfold accumulateChromagram
  rw [show List.range ([0, 0] : List ℝ).length = [0, 1] from rfl]
  simp only [List.foldl_cons, List.foldl_nil]
  unfold accumStep
  norm_num [pc440, Real.rpow_zero, getD_replicate_self]
  rfl

/-- Claim C5, counterexample: the all zero (dB) two bin spectrum at
sample rate 880 and window size 1 has its second bin at 440 Hz inside the
band, so the chromagram is not the all zero array. -/
theorem C5_counterexample_zero_spectrum :
    calculateChromagram [0, 0] 880 1 ≠ List.replicate 12 0 := by
  have hcalc : calculateChromagram [0, 0] 880 1
      = [0, 0, 0, 0, 0, 0, 0, 0, 0, 1, 0, 0] := by
    unfold calculateChromagram
    dsimp only
    rw [accum_twoZeroBins]
    rw [show (List.replicate 12 (0:ℝ)).set 9 1
        = [0, 0, 0, 0, 0, 0, 0, 0, 0, 1, 0, 0] from rfl]
    norm_num [listMax, List.foldl_cons, List.foldl_nil, max_def]
  rw [hcalc, show (List.replicate 12 (0:ℝ))
      = [0, 0, 0, 0, 0, 0, 0, 0, 0, 0, 0, 0] from rfl]
  intro h
  have := congrArg (fun l => l.getD 9 0) h
  norm_num at this

/-- Claim C5, amended: every element of the chromagram lies in [0, 1]; if
the maximum accumulated value is 0 the result is the all zero 12 element
array with no division performed; and unless the accumulated chromagram
is all zero, some element of the output equals exactly 1. (The original
claim additionally asserted that an all zero dB spectrum yields all
zeros, which fails because 0 dB converts to linear magnitude 1.) -/
theorem C5_chromagram_normalized (fd : List ℝ) (sr fs : ℝ) :
    (∀ x ∈ calculateChromagram fd sr fs, 0 ≤ x ∧ x ≤ 1) ∧
    (listMax (accumulateChromagram fd (sr / (fs * 2))) = 0 →
      calculateChromagram fd sr fs = List.replicate 12 0) ∧
    (accumulateChromagram fd (sr / (fs * 2)) ≠ List.replicate 12 0 →
      ∃ x ∈ calculateChromagram fd sr fs, x = 1) := by
  set bs := sr / (fs * 2) with hbs
  set acc := accumulateChromagram fd bs with hacc
  have hlen : acc.length = 12 := accum_length fd bs
  have hnonneg : ∀ x ∈ acc, 0 ≤ x := accum_nonneg fd bs
  have hne : acc ≠ [] := by
    intro h
    rw [h] at hlen
    simp at hlen
  have hshow : calculateChromagram fd sr fs
      = acc.map (fun v => if listMax acc > 0 then v / listMax acc else 0) := rfl
  refine ⟨?_, ?_, ?_⟩
  · intro x hx
    rw [hshow] at hx
    obtain ⟨v, hv, hvx⟩ := List.mem_map.mp hx
    by_cases hm : listMax acc > 0
    · rw [if_pos hm] at hvx
      subst hvx
      constructor
      · exact div_nonneg (hnonneg v hv) (le_of_lt hm)
      · exact div_le_one_of_le₀ (le_listMax_of_mem hv) (le_of_lt hm)
    · rw [if_neg hm] at hvx
      subst hvx
      norm_num
  · intro hmax
    rw [hshow, hmax]
    have hconst : (fun v => if (0:ℝ) > 0 then v / (0:ℝ) else 0) = (fun _ : ℝ => (0:ℝ)) := by
      funext v
      rw [if_neg (lt_irrefl 0)]
    rw [hconst, List.map_const', hlen]
  · intro hne2
    have hmaxpos : 0 < listMax acc := by
      rcases lt_or_eq_of_le (listMax_nonneg_of acc hne hnonneg) with h | h
      · exact h
      · exfalso
        apply hne2
        apply List.eq_replicate_iff.mpr
        refine ⟨hlen, ?_⟩
        intro b hb
        have hb1 := hnonneg b hb
        have hb2 := le_listMax_of_mem hb
        rw [← h] at hb2
        linarith
    refine ⟨listMax acc / listMax acc, ?_, ?_⟩
    · rw [hshow]
      apply List.mem_map.mpr
      refine ⟨listMax acc, listMax_mem hne, ?_⟩
      rw [if_pos hmaxpos]
    · exact div_self (ne_of_gt hmaxpos)

theorem accum_empty : accumulateChromagram [] (880 / (1 * 2)) = List.replicate 12 0 := rfl

theorem listMax_replicate_zero : listMax (List.replicate 12 (0:ℝ)) = 0 := by
  rw [show List.replicate 12 (0:ℝ) = [0, 0, 0, 0, 0, 0, 0, 0, 0, 0, 0, 0] from rfl]
  norm_num [listMax, List.foldl_cons, List.foldl_nil, max_self]

/-- Claim C5 witness: the empty spectrum accumulates nothing, its maximum
is 0, and the result is the all zero 12 element array. -/
theorem C5_chromagram_normalized_witness :
    listMax (accumulateChromagram [] (880 / (1 * 2))) = 0 ∧
      calculateChromagram [] 880 1 = List.replicate 12 0 := by
  have h : listMax (accumulateChromagram [] (880 / (1 * 2))) = 0 := by
    rw [accum_empty, listMax_replicate_zero]
  exact ⟨h, (C5_chromagram_normalized [] 880 1).2.1 h⟩

/-! ## Claim C6: pitch class stays inside the 12 element array. -/

/-- Claim C6: for every frequency in the 60 to 4000 Hz contribution band
the pitch class is inside [0, 11] and the array index derived from it is
below 12, so the accumulation never writes outside the chromagram; the
truncating remainder behaves like the flooring one because the rounded
MIDI number is nonnegative on the whole band. -/
theorem C6_pitch_class_in_range (f : ℝ) (h1 : 60 ≤ f) (h2 : f ≤ 4000) :
    0 ≤ frequencyToPitchClass f ∧ frequencyToPitchClass f ≤ 11 ∧
      (frequencyToPitchClass f).toNat < 12 := by
  obtain ⟨ha, hb⟩ := frequencyToPitchClass_bounds f h1
  exact ⟨ha, hb, by omega⟩

/-- Claim C6 witness: at 440 Hz the pitch class is 9 (note A), inside the
array. -/
theorem C6_pitch_class_in_range_witness :
    (60 ≤ (440:ℝ) ∧ (440:ℝ) ≤ 4000) ∧
      0 ≤ frequencyToPitchClass 440 ∧ frequencyToPitchClass 440 ≤ 11 ∧
        (frequencyToPitchClass 440).toNat < 12 :=
  ⟨⟨by norm_num, by norm_num⟩,
    C6_pitch_class_in_range 440 (by norm_num) (by norm_num)⟩

/-! ## Key classifier (audio-analyzer.js lines 26-47 and 282-338) -/

/-- The result record of `detectKeyFromChromagram` (lines 315-320). -/
structure KeyResult where
  key : String
  mode : String
  camelot : String
  fullName : String
deriving DecidableEq

/-- The note name table `NOTE_NAMES` (line 47). -/
def NOTE_NAMES : List String :=
  ["C", "C#", "D", "D#", "E", "F"] ++ ["F#", "G", "G#", "A", "A#", "B"]

/-- The Camelot wheel table `CAMELOT_WHEEL` (lines 26-39), as an
association list in source order. -/
def CAMELOT_WHEEL : List (String × String) :=
  [("C major", "8B"), ("A minor", "8A"),
   ("G major", "9B"), ("E minor", "9A"),
   ("D major", "10B"), ("B minor", "10A"),
   ("A major", "11B"), ("F# minor", "11A"),
   ("E major", "12B"), ("C# minor", "12A"),
   ("B major", "1B"), ("G# minor", "1A"),
   ("F# major", "2B"), ("D# minor", "2A"),
   ("Db major", "3B"), ("Bb minor", "3A"),
   ("Ab major", "4B"), ("F minor", "4A"),
   ("Eb major", "5B"), ("C minor", "5A"),
   ("Bb major", "6B"), ("G minor", "6A"),
   ("F major", "7B"), ("D minor", "7A")]

/-- The Krumhansl major profile (line 285). -/
def majorProfile : List ℚ :=
  [6.35, 2.23, 3.48, 2.33, 4.38, 4.09, 2.52, 5.19, 2.39, 3.66, 2.29, 2.88]

/-- The Krumhansl minor profile (line 286). -/
def minorProfile : List ℚ :=
  [6.33, 2.68, 3.52, 5.38, 2.60, 3.53, 2.54, 4.75, 3.98, 2.69, 3.34, 3.17]

/-- The rotated dot product `calculateCorrelation(chromagram, profile,
rotation)` of lines 331-338. -/
def calculateCorrelation (chromagram profile : List ℚ) (rotation : ℕ) : ℚ :=
  (List.range 12).foldl
    (fun sum i => sum + chromagram.getD ((i + rotation) % 12) 0 * profile.getD i 0) 0

/-- Selects the profile a candidate mode uses. -/
def profileFor (mode : String) : List ℚ :=
  if mode = "minor" then minorProfile else majorProfile

/-- The 24 candidates of the scan loop of `detectKeyFromChromagram`
(lines 293-309), flattened in evaluation order: tonic ascending, the
major check before the minor check at each tonic. -/
def keyCandidates : List (ℕ × String) :=
  (List.range 12).flatMap (fun tonic => [(tonic, "major"), (tonic, "minor")])

/-- One comparison of the scan loop: replace the running best only on a
strictly greater correlation (lines 296-300 and 303-308). The `none`
state is the `-Infinity` initial best, which loses to every score. -/
def scanStep (chromagram : List ℚ) (best : Option (ℚ × ℕ × String)) (cand : ℕ × String) :
    Option (ℚ × ℕ × String) :=
  let corr := calculateCorrelation chromagram (profileFor cand.2) cand.1
  match best with
  | none => some (corr, cand.1, cand.2)
  | some b => if b.1 < corr then some (corr, cand.1, cand.2) else some b

/-- The full scan over the 24 candidates. -/
def scanBest (chromagram : List ℚ) : Option (ℚ × ℕ × String) :=
  keyCandidates.foldl (scanStep chromagram) none

/-- The full `detectKeyFromChromagram(chromagram)` of lines 282-321:
scan the 24 keys, resolve the note name, build the display name, and look
it up in the Camelot table with the `'--'` fallback of line 313. The
`getD` default is unreachable: the scan of a 24 element candidate list
never returns `none`. -/
def detectKeyFromChromagram (chromagram : List ℚ) : KeyResult :=
  let best := (scanBest chromagram).getD (0, 0, "major")
  let noteName := NOTE_NAMES.getD best.2.1 ""
  let keyName := noteName ++ " " ++ best.2.2
  let camelot := (CAMELOT_WHEEL.lookup keyName).getD "--"
  ⟨noteName, best.2.2, camelot, keyName⟩

/-! ### Key classifier: helper lemmas and concrete evaluations -/

theorem keyCandidates_eq :
    keyCandidates =
      [(0, "major"), (0, "minor"), (1, "major"), (1, "minor"), (2, "major"), (2, "minor"),
       (3, "major"), (3, "minor"), (4, "major"), (4, "minor"), (5, "major"), (5, "minor"),
       (6, "major"), (6, "minor"), (7, "major"), (7, "minor"), (8, "major"), (8, "minor"),
       (9, "major"), (9, "minor"), (10, "major"), (10, "minor"), (11, "major"), (11, "minor")] := by
  decide

theorem corr_zero (p : List ℚ) (r : ℕ) :
    calculateCorrelation (List.replicate 12 0) p r = 0 := by
  unfold calculateCorrelation
  rw [show List.range 12 = [0, 1, 2, 3, 4, 5, 6, 7, 8, 9, 10, 11] from rfl]
  simp only [List.foldl_cons, List.foldl_nil, getD_replicate_self, zero_mul, add_zero]

theorem scanBest_zero : scanBest (List.replicate 12 0) = some (0, 0, "major") := by
  unfold scanBest
  rw [keyCandidates_eq]
  simp only [List.foldl_cons, List.foldl_nil, scanStep, corr_zero, lt_self_iff_false,
    if_false]

theorem detect_zero :
    detectKeyFromChromagram (List.replicate 12 0) = ⟨"C", "major", "8B", "C major"⟩ := by
  unfold detectKeyFromChromagram
  rw [scanBest_zero]
  rfl

/-- A chromagram with all weight at pitch class 1: each of the 24
correlations is then a single profile entry, and the major profile head
6.35 at tonic 1 wins. -/
def spikeChroma : List ℚ := [0, 1, 0, 0, 0, 0, 0, 0, 0, 0, 0, 0]

theorem scanBest_spike : scanBest spikeChroma = some (6.35, 1, "major") := by
  have hr : List.range 12 = [0, 1, 2, 3, 4, 5, 6, 7, 8, 9, 10, 11] := rfl
  have hm1 : ("major" = "minor") = False := eq_false (by decide)
  have hm2 : ("minor" = "minor") = True := eq_true rfl
  unfold scanBest
  rw [keyCandidates_eq]
  norm_num [scanStep, profileFor, calculateCorrelation, hr, spikeChroma,
    majorProfile, minorProfile, List.foldl_cons, List.foldl_nil, hm1, hm2]

theorem detect_spike :
    detectKeyFromChromagram spikeChroma = ⟨"C#", "major", "--", "C# major"⟩ := by
  unfold detectKeyFromChromagram
  rw [scanBest_spike]
  rfl

/-! ## Claim C7: scan order, tie breaking, and the all zero chromagram. -/

/-- Claim C7: the scan visits the 24 candidates in ascending tonic order
with major before minor at each tonic; a candidate whose score equals the
running best never replaces it (first found wins); and consequently the
all zero chromagram, where every score is 0, selects tonic 0 with mode
major, the first candidate. -/
theorem C7_scan_order_and_ties :
    keyCandidates =
      [(0, "major"), (0, "minor"), (1, "major"), (1, "minor"), (2, "major"), (2, "minor"),
       (3, "major"), (3, "minor"), (4, "major"), (4, "minor"), (5, "major"), (5, "minor"),
       (6, "major"), (6, "minor"), (7, "major"), (7, "minor"), (8, "major"), (8, "minor"),
       (9, "major"), (9, "minor"), (10, "major"), (10, "minor"), (11, "major"), (11, "minor")] ∧
    (∀ (chromagram : List ℚ) (b : ℚ × ℕ × String) (cand : ℕ × String),
      calculateCorrelation chromagram (profileFor cand.2) cand.1 = b.1 →
      scanStep chromagram (some b) cand = some b) ∧
    detectKeyFromChromagram (List.replicate 12 0) = ⟨"C", "major", "8B", "C major"⟩ := by
  refine ⟨by decide, ?_, detect_zero⟩
  intro chromagram b cand h
  unfold scanStep
  dsimp only
  rw [h, if_neg (lt_irrefl _)]

/-- Claim C7 witness: on the all zero chromagram the minor candidate at
tonic 0 scores 0, equal to the running best, and does not replace it. -/
theorem C7_scan_order_and_ties_witness :
    calculateCorrelation (List.replicate 12 0) (profileFor ("minor" : String)) 0
        = ((0:ℚ), 0, ("major" : String)).1 ∧
      scanStep (List.replicate 12 0) (some (0, 0, "major")) (0, "minor")
        = some (0, 0, "major") :=
  ⟨by rw [corr_zero],
    C7_scan_order_and_ties.2.1 (List.replicate 12 0) (0, 0, "major") (0, "minor")
      (by rw [corr_zero])⟩

/-! ## Claim C8: Camelot lookup fallback.

The fallback exists and lookups of present display names return the table
entry, but the sentinel the source returns for an absent name is the
string `'--'` (line 313), not `"unknown"`: on `spikeChroma` the winner is
C sharp major, absent from the table, and the classifier reports
`'--'`. -/

/-- Claim C8, counterexample: a chromagram whose best key is C sharp
major, a display name absent from the Camelot table; the classifier
returns the sentinel `'--'`, which is not the string `"unknown"`. -/
theorem C8_camelot_counterexample :
    (detectKeyFromChromagram spikeChroma).fullName = "C# major" ∧
    List.lookup "C# major" CAMELOT_WHEEL = none ∧
    (detectKeyFromChromagram spikeChroma).camelot = "--" ∧
    (detectKeyFromChromagram spikeChroma).camelot ≠ "unknown" := by
  rw [detect_spike]
  refine ⟨rfl, by decide, rfl, by decide⟩

/-- Claim C8, amended: the classifier never fails on an absent display
name: when the display name of the selected key is not a key of the
Camelot table it returns the fixed sentinel `'--'` (not `"unknown"`), and
when the display name is present it returns exactly the table entry. -/
theorem C8_camelot_fallback (chromagram : List ℚ) :
    (CAMELOT_WHEEL.lookup (detectKeyFromChromagram chromagram).fullName = none →
      (detectKeyFromChromagram chromagram).camelot = "--") ∧
    (∀ code, CAMELOT_WHEEL.lookup (detectKeyFromChromagram chromagram).fullName = some code →
      (detectKeyFromChromagram chromagram).camelot = code) := by
  have hfull : (detectKeyFromChromagram chromagram).fullName
      = NOTE_NAMES.getD ((scanBest chromagram).getD (0, 0, "major")).2.1 ""
        ++ " " ++ ((scanBest chromagram).getD (0, 0, "major")).2.2 := rfl
  have hcam : (detectKeyFromChromagram chromagram).camelot
      = (CAMELOT_WHEEL.lookup ((detectKeyFromChromagram chromagram).fullName)).getD "--" := rfl
  constructor
  · intro h
    rw [hcam, h]
    rfl
  · intro code h
    rw [hcam, h]
    rfl

/-- Claim C8 witness: instantiated on `spikeChroma`, whose display name
C sharp major is absent, giving the sentinel. -/
theorem C8_camelot_fallback_witness :
    CAMELOT_WHEEL.lookup (detectKeyFromChromagram spikeChroma).fullName = none ∧
      (detectKeyFromChromagram spikeChroma).camelot = "--" := by
  have h : CAMELOT_WHEEL.lookup (detectKeyFromChromagram spikeChroma).fullName = none := by
    rw [detect_spike]
    decide
  exact ⟨h, (C8_camelot_fallback spikeChroma).1 h⟩

/-! ## Claim C9: invariance under uniform positive scaling. -/

theorem getD_map_mul (k : ℚ) (l : List ℚ) (i : ℕ) :
    (l.map (fun x => k * x)).getD i 0 = k * l.getD i 0 := by
  rcases lt_or_le i l.length with h | h
  · rw [List.getD_eq_getElem _ _ (by simpa using h), List.getD_eq_getElem _ _ h]
    simp
  · rw [List.getD_eq_default _ _ (by simpa using h), List.getD_eq_default _ _ h]
    simp

theorem corr_map_mul (k : ℚ) (chroma p : List ℚ) (r : ℕ) :
    calculateCorrelation (chroma.map (fun x => k * x)) p r
      = k * calculateCorrelation chroma p r := by
  unfold calculateCorrelation
  have h2 : (fun (sum : ℚ) (i : ℕ) =>
        sum + (chroma.map (fun x => k * x)).getD ((i + r) % 12) 0 * p.getD i 0)
      = (fun sum i => sum + k * (chroma.getD ((i + r) % 12) 0 * p.getD i 0)) := by
    funext sum i
    rw [getD_map_mul, mul_assoc]
  rw [h2]
  have key : ∀ (l : List ℕ) (s : ℚ),
      l.foldl (fun sum i => sum + k * (chroma.getD ((i + r) % 12) 0 * p.getD i 0)) (k * s)
        = k * l.foldl (fun sum i => sum + chroma.getD ((i + r) % 12) 0 * p.getD i 0) s := by
    intro l
    induction l with
    | nil => intro s; rfl
    | cons a t ih =>
      intro s
      rw [List.foldl_cons, List.foldl_cons]
      rw [show k * s + k * (chroma.getD ((a + r) % 12) 0 * p.getD a 0)
            = k * (s + chroma.getD ((a + r) % 12) 0 * p.getD a 0) by ring]
      exact ih _
  have h3 := key (List.range 12) 0
  rw [mul_zero] at h3
  exact h3

theorem scanStep_map_mul (k : ℚ) (hk : 0 < k) (chroma : List ℚ)
    (b : Option (ℚ × ℕ × String)) (cand : ℕ × String) :
    scanStep (chroma.map (fun x => k * x)) (b.map (fun t => (k * t.1, t.2))) cand
      = (scanStep chroma b cand).map (fun t => (k * t.1, t.2)) := by
  cases b with
  | none => simp [scanStep, corr_map_mul]
  | some b =>
    obtain ⟨bc, bk, bm⟩ := b
    simp only [scanStep, Option.map_some', corr_map_mul]
    rcases lt_or_le bc (calculateCorrelation chroma (profileFor cand.2) cand.1) with h | h
    · rw [if_pos h, if_pos ((mul_lt_mul_left hk).mpr h), Option.map_some']
    · rw [if_neg (not_lt.mpr h), if_neg (not_lt.mpr ((mul_le_mul_left hk).mpr h)),
        Option.map_some']

theorem scanBest_map_mul (k : ℚ) (hk : 0 < k) (chroma : List ℚ) :
    scanBest (chroma.map (fun x => k * x))
      = (scanBest chroma).map (fun t => (k * t.1, t.2)) := by
  unfold scanBest
  have key : ∀ (l : List (ℕ × String)) (b : Option (ℚ × ℕ × String)),
      l.foldl (scanStep (chroma.map (fun x => k * x))) (b.map (fun t => (k * t.1, t.2)))
        = (l.foldl (scanStep chroma) b).map (fun t => (k * t.1, t.2)) := by
    intro l
    induction l with
    | nil => intro b; rfl
    | cons c t ih =>
      intro b
      simp only [List.foldl_cons]
      rw [scanStep_map_mul k hk chroma b c]
      exact ih _
  simpa using key keyCandidates none

/-- Claim C9: scaling every chromagram element by the same positive
constant never changes the selected key, mode, display name or Camelot
code. -/
theorem C9_scale_invariance (chroma : List ℚ) (k : ℚ) (hk : 0 < k) :
    detectKeyFromChromagram (chroma.map (fun x => k * x))
      = detectKeyFromChromagram chroma := by
  unfold detectKeyFromChromagram
  rw [scanBest_map_mul k hk chroma]
  cases scanBest chroma with
  | none => rfl
  | some b => rfl

/-- Claim C9 witness: doubling the spike chromagram leaves the result
unchanged. -/
theorem C9_scale_invariance_witness :
    (0:ℚ) < 2 ∧
      detectKeyFromChromagram (spikeChroma.map (fun x => 2 * x))
        = detectKeyFromChromagram spikeChroma :=
  ⟨by norm_num, C9_scale_invariance spikeChroma 2 (by norm_num)⟩
